import Mathlib

/-!
Verification of the FFShare release CLI (scripts/cli.py) against its
natural-language specification.

The Python source is shallowly embedded: pure functions become Lean
functions over `List Char` / `String` / `Nat`; the regular expressions of
the source are embedded character by character (the source's regexes only
use literal characters, optional single characters, greedy digit runs and
greedy non-quote runs, so each one has a direct deterministic reading);
stateful code (file system, subprocess calls) becomes explicit state
passing, with the trace of external commands returned as data.

Note: Python's `\d` matches any Unicode decimal digit; the embedding
restricts to ASCII digits (`Char.isDigit`), matching the spec's tag
grammar of unsigned decimal integers.
-/

/-! ## Version state machine (cli.py lines 57-142) -/

/-- `class ReleaseType(str, Enum)` from cli.py. -/
inductive ReleaseType
  | major
  | minor
  | patch
deriving DecidableEq

/-- `bump_version` from cli.py lines 124-134. -/
def bump_version (version : Nat × Nat × Nat) (release_type : ReleaseType) : Nat × Nat × Nat :=
  match release_type with
  | ReleaseType.major => (version.1 + 1, 0, 0)
  | ReleaseType.minor => (version.1, version.2.1 + 1, 0)
  | ReleaseType.patch => (version.1, version.2.1, version.2.2 + 1)

/-- Strict lexicographic order on version triples (spec section 3). -/
def versionLt (v w : Nat × Nat × Nat) : Prop :=
  v.1 < w.1 ∨ (v.1 = w.1 ∧ (v.2.1 < w.2.1 ∨ (v.2.1 = w.2.1 ∧ v.2.2 < w.2.2)))

/-- Numeric value of an ASCII digit character, as used by Python's `int`. -/
def digitVal (c : Char) : Nat := c.toNat - 48

/-- Value of a decimal digit string, as computed by Python's `int` on the
regex groups. -/
def digitsVal (l : List Char) : Nat := l.foldl (fun acc c => 10 * acc + digitVal c) 0

/-- Decimal rendering helper (fuel-based so that it is structural; fuel
`n` is enough for the value `n`). -/
def natDecimalAux : Nat → Nat → List Char
  | 0, _ => []
  | fuel + 1, n => if n = 0 then [] else natDecimalAux fuel (n / 10) ++ [Nat.digitChar (n % 10)]

/-- Decimal rendering of a natural number, as Python's f-string renders an
`int`. -/
def natDecimal (n : Nat) : List Char := if n = 0 then ['0'] else natDecimalAux n n

/-- Greedy `\d+` at the head of the input: returns the group's value and
the remainder, or `none` when no digit is present. -/
def readNat (l : List Char) : Option (Nat × List Char) :=
  if l.takeWhile Char.isDigit = [] then none
  else some (digitsVal (l.takeWhile Char.isDigit), l.dropWhile Char.isDigit)

/-- Literal `\.` in the version regexes. -/
def expectDot (l : List Char) : Option (List Char) :=
  match l with
  | c :: r => if c = '.' then some r else none
  | [] => none

/-- Literal `-rc\.` in the RC-tag regex of `_create_tag` (cli.py line 275). -/
def expectRcSep (l : List Char) : Option (List Char) :=
  match l with
  | c1 :: c2 :: c3 :: c4 :: r =>
    if c1 = '-' ∧ c2 = 'r' ∧ c3 = 'c' ∧ c4 = '.' then some r else none
  | _ => none

/-- Body of `re.match(r"v?(\d+)\.(\d+)\.(\d+)", tag)` after the optional
leading `v` (cli.py line 118). `re.match` anchors at the start only and
ignores trailing characters. -/
def matchCore (l : List Char) : Option (Nat × Nat × Nat) :=
  (readNat l).bind (fun p1 =>
    (expectDot p1.2).bind (fun r2 =>
      (readNat r2).bind (fun p2 =>
        (expectDot p2.2).bind (fun r4 =>
          (readNat r4).map (fun p3 => (p1.1, p2.1, p3.1))))))

/-- Body of `re.match(r"v?(\d+)\.(\d+)\.(\d+)-rc\.(\d+)", rc_tag)` after
the optional leading `v` (cli.py line 275). -/
def matchRcCore (l : List Char) : Option ((Nat × Nat × Nat) × Nat) :=
  (readNat l).bind (fun p1 =>
    (expectDot p1.2).bind (fun r2 =>
      (readNat r2).bind (fun p2 =>
        (expectDot p2.2).bind (fun r4 =>
          (readNat r4).bind (fun p3 =>
            (expectRcSep p3.2).bind (fun r6 =>
              (readNat r6).map (fun p4 => ((p1.1, p2.1, p3.1), p4.1))))))))

/-- The `v?` at the start of both tag regexes: an optional single literal
`v`. A leading `v` cannot start `\d+`, so consuming it when present is
equivalent to the regex's backtracking semantics. -/
def stripLeadV (l : List Char) : List Char :=
  match l with
  | c :: rest => if c = 'v' then rest else c :: rest
  | [] => []

/-- Character-level body of `parse_version` (cli.py lines 116-121). -/
def parseVersionChars (l : List Char) : Nat × Nat × Nat :=
  (matchCore (stripLeadV l)).getD (0, 0, 0)

/-- `parse_version` from cli.py lines 116-121. -/
def parse_version (tag : String) : Nat × Nat × Nat := parseVersionChars tag.toList

/-- The ad-hoc RC parse of `_create_tag` (cli.py lines 275-281), returning
the version triple and the RC ordinal. -/
def parseRcTag (t : String) : Option ((Nat × Nat × Nat) × Nat) :=
  matchRcCore (stripLeadV t.toList)

/-- The optional `-rc.{rc}` suffix appended by `format_version`. -/
def rcSuffix (rc : Option Nat) : List Char :=
  match rc with
  | none => []
  | some n => '-' :: 'r' :: 'c' :: '.' :: natDecimal n

/-- Character-level body of `format_version` (cli.py lines 137-142):
`f"v{a}.{b}.{c}"` plus the optional `f"-rc.{rc}"`. -/
def formatVersionChars (v : Nat × Nat × Nat) (rc : Option Nat) : List Char :=
  'v' :: (natDecimal v.1 ++ '.' :: (natDecimal v.2.1 ++ '.' :: (natDecimal v.2.2 ++ rcSuffix rc)))

/-- `format_version` from cli.py lines 137-142 (its `rc` parameter
defaults to `None`). -/
def format_version (version : Nat × Nat × Nat) (rc : Option Nat := none) : String :=
  ⟨formatVersionChars version rc⟩

/-! ## Tag repository adapters (cli.py lines 83-113)

The git tag store is external: each query is modeled by its observable
inputs, the subprocess return code and the raw stdout text. The functions
below embed exactly what the Python code does with that text. -/

/-- Python's `str.strip()` on the character list (ASCII whitespace). -/
def trimChars (l : List Char) : List Char :=
  ((l.dropWhile Char.isWhitespace).reverse.dropWhile Char.isWhitespace).reverse

/-- Python's `str.split(sep)` for a single-character separator: always
returns at least one (possibly empty) piece. -/
def splitOnChar (sep : Char) : List Char → List (List Char)
  | [] => [[]]
  | c :: rest =>
    match splitOnChar sep rest with
    | [] => [[c]]
    | h :: t => if c = sep then [] :: h :: t else (c :: h) :: t

/-- `result.stdout.strip().split("\n")` as done by the tag queries. -/
def tagLines (stdout : String) : List String :=
  (splitOnChar '\n' (trimChars stdout.toList)).map (fun l => (⟨l⟩ : String))

/-- `get_latest_stable_tag` from cli.py lines 83-93, as a function of the
store's response (`git tag -l v* --sort -version:refname`): first listed
tag that is nonempty and contains no `-`. -/
def get_latest_stable_tag (returncode : Int) (stdout : String) : Option String :=
  if returncode ≠ 0 then none
  else (tagLines stdout).find? (fun t => (t != "") && !(t.toList.contains '-'))

/-- `get_latest_rc_tag` from cli.py lines 96-103, as a function of the
store's response (`git tag -l v*-rc.* --sort -version:refname`): the
first listed line. -/
def get_latest_rc_tag (returncode : Int) (stdout : String) : Option String :=
  if returncode ≠ 0 ∨ trimChars stdout.toList = [] then none
  else (tagLines stdout).head?

/-- The git glob `v*-rc.*` used by `get_latest_rc_tag`'s store query: a
leading `v`, anything, the literal `-rc.`, anything. -/
def RcGlob (t : String) : Prop :=
  ∃ a b : List Char, t.toList = 'v' :: (a ++ ('-' :: 'r' :: 'c' :: '.' :: b))

/-- `pat` occurs contiguously somewhere in `l` (Python's `in` on
strings). -/
def ContainsSeq (pat l : List Char) : Prop := ∃ a b, l = a ++ (pat ++ b)

/-! ## Tag creation (cli.py lines 241-301) -/

/-- The error exits of `_create_tag` (`typer.echo(..., err=True)` followed
by `raise typer.Exit(1)`). -/
inductive TagError
  | noRcTag
  | malformedRc (t : String)
  | releaseTypeRequired
deriving DecidableEq

/-- cli.py lines 252-257: the current version is the parse of the latest
stable tag, falling back to `(0, 0, 0)` when there is none. -/
def currentVersionOf (stableTag : Option String) : Nat × Nat × Nat :=
  match stableTag with
  | some t => parse_version t
  | none => (0, 0, 0)

/-- The tag-string computation of `_create_tag` (cli.py lines 241-301),
as a pure function of the store query results `stableTag` (result of
`get_latest_stable_tag`) and `rcTag` (result of `get_latest_rc_tag`). -/
def computeNewTag (release_type : Option ReleaseType) (is_rc : Bool)
    (stableTag : Option String) (rcTag : Option String) : Except TagError String :=
  let current_version := currentVersionOf stableTag
  if is_rc then
    match release_type with
    | some rt => Except.ok (format_version (bump_version current_version rt) (some 1))
    | none =>
      match rcTag with
      | none => Except.error TagError.noRcTag
      | some t =>
        match parseRcTag t with
        | none => Except.error (TagError.malformedRc t)
        | some (ver, n) => Except.ok (format_version ver (some (n + 1)))
  else
    match release_type with
    | none => Except.error TagError.releaseTypeRequired
    | some rt => Except.ok (format_version (bump_version current_version rt) none)

/-! ## Gradle version file (cli.py lines 72-80 and 322-352) -/

/-- The literal part `versionName "` of the regex
`versionName "([^"]+)"` (cli.py line 75). -/
def vnPat : List Char := "versionName \"".toList

/-- The literal part `versionCode ` of the regex `versionCode (\d+)`
(cli.py line 76). -/
def vcPat : List Char := "versionCode ".toList

/-- Consume an exact literal pattern at the head of the input. -/
def stripPat : List Char → List Char → Option (List Char)
  | [], l => some l
  | p :: ps, c :: cs => if c = p then stripPat ps cs else none
  | _ :: _, [] => none

/-- The closing `"` of the versionName regex. -/
def expectQuote (l : List Char) : Option (List Char) :=
  match l with
  | c :: r => if c = '"' then some r else none
  | [] => none

/-- Try the regex `versionName "([^"]+)"` anchored at the head of `l`;
returns the group and the remainder after the whole match. `[^"]+` is
greedy and cannot cross the closing quote. -/
def tryVersionNameAt (l : List Char) : Option (List Char × List Char) :=
  (stripPat vnPat l).bind (fun rest =>
    (expectQuote (rest.dropWhile (fun c => c != '"'))).bind (fun after =>
      if rest.takeWhile (fun c => c != '"') = [] then none
      else some (rest.takeWhile (fun c => c != '"'), after)))

/-- Try the regex `versionCode (\d+)` anchored at the head of `l`. -/
def tryVersionCodeAt (l : List Char) : Option (List Char × List Char) :=
  (stripPat vcPat l).bind (fun rest =>
    if rest.takeWhile Char.isDigit = [] then none
    else some (rest.takeWhile Char.isDigit, rest.dropWhile Char.isDigit))

/-- `re.search(r'versionName "([^"]+)"', content)` (cli.py line 75):
leftmost match, returning group 1. -/
def searchVersionName : List Char → Option (List Char)
  | [] => none
  | c :: rest =>
    match tryVersionNameAt (c :: rest) with
    | some (grp, _) => some grp
    | none => searchVersionName rest

/-- `re.search(r"versionCode (\d+)", content)` (cli.py line 76):
leftmost match, returning group 1. -/
def searchVersionCode : List Char → Option (List Char)
  | [] => none
  | c :: rest =>
    match tryVersionCodeAt (c :: rest) with
    | some (ds, _) => some ds
    | none => searchVersionCode rest

/-- `get_gradle_version` from cli.py lines 72-80, as a function of the
file's content. -/
def get_gradle_version (content : String) : String × Nat :=
  (match searchVersionName content.toList with
   | some g => (⟨g⟩ : String)
   | none => "0.0.0",
   match searchVersionCode content.toList with
   | some ds => digitsVal ds
   | none => 1)

/-- The file contains a match of `versionName "([^"]+)"` somewhere. -/
def HasVersionName (l : List Char) : Prop :=
  ∃ a g b, l = a ++ (vnPat ++ (g ++ '"' :: b)) ∧ g ≠ [] ∧ ∀ c ∈ g, c ≠ '"'

/-- The file contains a match of `versionCode (\d+)` somewhere. -/
def HasVersionCode (l : List Char) : Prop :=
  ∃ a d b, l = a ++ (vcPat ++ (d ++ b)) ∧ d ≠ [] ∧ ∀ c ∈ d, c.isDigit = true

/-- Replacement text `versionName "{version}"` of the first `re.sub`
(cli.py line 335). -/
def vnRepl (version : String) : List Char := vnPat ++ version.toList ++ ['"']

/-- Replacement text `versionCode {newCode}` of the second `re.sub`
(cli.py line 336). -/
def vcRepl (newCode : Nat) : List Char := vcPat ++ natDecimal newCode

/-- `re.sub` for the versionName pattern: left-to-right, non-overlapping,
resuming after each match. Fuel decreases by one per step while at least
one character is consumed, so `l.length` fuel is enough. -/
def subVersionNameAux (version : String) : Nat → List Char → List Char
  | 0, l => l
  | fuel + 1, l =>
    match l with
    | [] => []
    | c :: rest =>
      match tryVersionNameAt (c :: rest) with
      | some (_, after) => vnRepl version ++ subVersionNameAux version fuel after
      | none => c :: subVersionNameAux version fuel rest

/-- `re.sub(r'versionName "[^"]+"', ...)` over the whole content. -/
def subVersionName (l : List Char) (version : String) : List Char :=
  subVersionNameAux version l.length l

/-- `re.sub` for the versionCode pattern. -/
def subVersionCodeAux (newCode : Nat) : Nat → List Char → List Char
  | 0, l => l
  | fuel + 1, l =>
    match l with
    | [] => []
    | c :: rest =>
      match tryVersionCodeAt (c :: rest) with
      | some (_, after) => vcRepl newCode ++ subVersionCodeAux newCode fuel after
      | none => c :: subVersionCodeAux newCode fuel rest

/-- `re.sub(r"versionCode \d+", ...)` over the whole content. -/
def subVersionCode (l : List Char) (newCode : Nat) : List Char :=
  subVersionCodeAux newCode l.length l

/-- The two `re.sub` rewrites of `_build_apks` (cli.py lines 333-336). -/
def rewriteGradle (content : String) (version : String) (newCode : Nat) : String :=
  ⟨subVersionCode (subVersionName content.toList version) newCode⟩

/-! ## Build step with explicit target version (cli.py lines 322-352) -/

/-- Outcome of `run(["./gradlew", "assembleRelease"])`: normal return or
a raised `CalledProcessError`. -/
inductive BuildOutcome
  | ok
  | buildFailure
deriving DecidableEq

/-- The two file-system locations touched by the transactional rewrite:
`app/build.gradle` and its scoped backup `app/build.gradle.original`. -/
structure GradleFs where
  gradle : String
  backup : Option String
deriving DecidableEq

/-- The version-rewrite section of `_build_apks` when an explicit target
version is given (cli.py lines 326-347): read the current version/code,
`shutil.copy` the file to a backup, write the rewritten content, run the
external build (which may raise), and in the `finally` block
`shutil.move` the backup over the file. `buildOk` scripts the external
build step's outcome. -/
def build_apks_with_version (fs : GradleFs) (version : String) (buildOk : Bool) :
    GradleFs × BuildOutcome :=
  let origCode := (get_gradle_version fs.gradle).2
  let fs1 : GradleFs := { gradle := fs.gradle, backup := some fs.gradle }
  let newContent := rewriteGradle fs1.gradle version (origCode + 1)
  let fs2 : GradleFs := { fs1 with gradle := newContent }
  let outcome := if buildOk then BuildOutcome.ok else BuildOutcome.buildFailure
  let fs3 : GradleFs := { gradle := fs2.backup.getD fs2.gradle, backup := none }
  (fs3, outcome)

/-! ## Artifact assembly into the output folder (cli.py lines 354-406) -/

/-- `APP_NAME` from cli.py line 35. -/
def APP_NAME : String := "FFShare"

/-- One produced APK, identified by its build variant directory name and
its file stem (name without the `.apk` extension). -/
structure ApkSource where
  variant : String
  stem : String

/-- `f.unlink()` on a directory listing. -/
def unlinkFile (folder : List String) (name : String) : List String := folder.erase name

/-- The purge loop `for f in output_folder.glob("*"): f.unlink()`
(cli.py lines 359-360): every entry of the listing is unlinked
(`pathlib`'s `*` also matches dotfiles). -/
def purgeFolder (folder : List String) : List String := folder.foldl unlinkFile folder

/-- `shutil.copy(src, folder / name)` (or `open(..., "w")`) on a
directory listing: creates the entry if absent, otherwise overwrites. -/
def copyInto (folder : List String) (name : String) : List String :=
  if name ∈ folder then folder else folder ++ [name]

/-- The renaming convention of cli.py lines 372-376: ABI is taken
positionally (`parts[2]`) from the dash-separated stem, defaulting to
`universal`, which is omitted from the output name. -/
def renameApk (version : String) (variant : String) (stem : String) : String :=
  let parts := (splitOnChar '-' stem.toList).map (fun l => (⟨l⟩ : String))
  let abi := if 2 < parts.length then parts.getD 2 "" else "universal"
  let abiSuffix := if abi ≠ "universal" then "_" ++ abi else ""
  APP_NAME ++ "_" ++ version ++ "_" ++ variant ++ abiSuffix ++ ".apk"

/-- The output directory listing after `_build_apks`'s folder section
(cli.py lines 354-406): purge everything, copy each renamed APK in, then
write the `release` manifest file. -/
def outputAfterAssemble (pre : List String) (version : String) (apks : List ApkSource) :
    List String :=
  let cleaned := purgeFolder pre
  let copied := apks.foldl (fun folder a => copyInto folder (renameApk version a.variant a.stem)) cleaned
  copyInto copied "release"

/-- The glob `*.apk` used for the manifest's SHA256 section (cli.py line
403). -/
def endsWithApk (name : String) : Bool := List.isSuffixOf ".apk".toList name.toList

/-- Insertion step of the filename sort. -/
def insertSorted (x : String) : List String → List String
  | [] => [x]
  | y :: ys => if (compare x y).isLE then x :: y :: ys else y :: insertSorted x ys

/-- Python's `sorted` on the APK filenames (lexicographic; code points and
byte order agree on ASCII names). -/
def sortStrings : List String → List String
  | [] => []
  | x :: xs => insertSorted x (sortStrings xs)

/-- The filenames listed in the manifest's `=== SHA256 ===` section:
`sorted(output_folder.glob("*.apk"))` (cli.py line 403). -/
def manifestApkListing (folder : List String) : List String :=
  sortStrings (folder.filter endsWithApk)

/-! ## Release publication (cli.py lines 431-512) -/

/-- The error exits of `_create_release`. -/
inductive ReleaseError
  | noTags
  | tagNotFound (t : String)
  | folderNotFound (version : String)
  | noApks (version : String)
deriving DecidableEq

/-- `tag.lstrip("v")` (cli.py line 448): strips every leading `v`. -/
def lstripV (tag : String) : String := ⟨tag.toList.dropWhile (fun c => c = 'v')⟩

/-- The external world observed by `_create_release`: the latest tag, git
tag existence (`git rev-parse`), the per-version release folder, its
`*.apk` listing, and the optional `release` notes file content. -/
structure ReleaseEnv where
  latestTag : Option String
  tagExists : String → Bool
  folderExists : String → Bool
  apkFiles : String → List String
  releaseNotes : String → Option String

/-- `_create_release` from cli.py lines 431-512, returning the list of
external commands run (in order) and the outcome. Only `git rev-parse`
and the two `gh` invocations mutate or query the outside world on these
paths. -/
def create_release (env : ReleaseEnv) (tagArg : Option String) (draft : Bool) :
    List (List String) × Except ReleaseError Unit :=
  let tagOpt :=
    match tagArg with
    | some t => if t = "" then env.latestTag else some t
    | none => env.latestTag
  match tagOpt with
  | none => ([], Except.error ReleaseError.noTags)
  | some tag =>
    let tr0 := [["git", "rev-parse", tag]]
    if env.tagExists tag = false then
      (tr0, Except.error (ReleaseError.tagNotFound tag))
    else
      let version := lstripV tag
      if env.folderExists version = false then
        (tr0, Except.error (ReleaseError.folderNotFound version))
      else
        let apks := env.apkFiles version
        if apks = [] then
          (tr0, Except.error (ReleaseError.noApks version))
        else
          let notes := (env.releaseNotes version).getD ("Release " ++ tag)
          let firstLine : String := ⟨(splitOnChar '\n' notes.toList).headD []⟩
          let title := if firstLine = "" then APP_NAME ++ " " ++ version else firstLine
          let isPre := tag.toList.contains '-'
          let createCmd :=
            ["gh", "release", "create", tag, "--title", title, "--notes", notes]
              ++ (if draft then ["--draft"] else [])
              ++ (if isPre then ["--prerelease"] else [])
              ++ apks
          (tr0 ++ [createCmd, ["gh", "release", "view", tag, "--json", "url", "-q", ".url"]],
            Except.ok ())

/-- A concrete environment for the missing-artifacts scenario: the tag
exists in git but no release folder or APKs do. -/
def envNoArtifacts : ReleaseEnv :=
  { latestTag := none
    tagExists := fun _ => true
    folderExists := fun _ => false
    apkFiles := fun _ => []
    releaseNotes := fun _ => none }


/-! ## Predicates used in theorem statements -/

/-- The next character (if any) does not satisfy `p`: a greedy run cannot
be extended into `l`. -/
abbrev headFails (p : Char → Bool) (l : List Char) : Prop :=
  match l with
  | [] => True
  | c :: _ => p c = false

/-- A nonempty all-digit character run (one `\d+` group). -/
abbrev DigitsNonempty (d : List Char) : Prop := d ≠ [] ∧ ∀ c ∈ d, c.isDigit = true

/-- `l` begins with the version pattern, decomposed into the optional
leading `v`, the three digit groups and the ignored remainder. -/
abbrev VersionPrefixDecomp (l d1 d2 d3 rest : List Char) : Prop :=
  (l = 'v' :: (d1 ++ '.' :: (d2 ++ '.' :: (d3 ++ rest)))
    ∨ l = d1 ++ '.' :: (d2 ++ '.' :: (d3 ++ rest)))
  ∧ DigitsNonempty d1 ∧ DigitsNonempty d2 ∧ DigitsNonempty d3

/-- `l` begins with the pattern of `parse_version`'s regex. -/
def BeginsWithVersionPattern (l : List Char) : Prop :=
  ∃ d1 d2 d3 rest, VersionPrefixDecomp l d1 d2 d3 rest

/-! ## Helper lemmas: greedy runs -/

theorem headFails_cons {p : Char → Bool} {c : Char} {l : List Char} (h : p c = false) :
    headFails p (c :: l) := h

theorem mem_takeWhile_pred {p : Char → Bool} :
    ∀ {l : List Char} {c : Char}, c ∈ l.takeWhile p → p c = true := by
  intro l
  induction l with
  | nil => intro c h; simp [List.takeWhile] at h
  | cons x xs ih =>
    intro c h
    rw [List.takeWhile_cons] at h
    by_cases hx : p x
    · rw [if_pos (by simp [hx])] at h
      rcases List.mem_cons.mp h with h1 | h2
      · subst h1; exact hx
      · exact ih h2
    · rw [if_neg (by simp [hx])] at h
      simp at h

theorem takeWhile_append_all (p : Char → Bool) :
    ∀ (l r : List Char), (∀ c ∈ l, p c = true) → headFails p r →
      (l ++ r).takeWhile p = l ∧ (l ++ r).dropWhile p = r := by
  intro l
  induction l with
  | nil =>
    intro r _ hr
    cases r with
    | nil => exact ⟨rfl, rfl⟩
    | cons c t =>
      have hc : p c = false := hr
      simp only [List.nil_append]
      constructor
      · rw [List.takeWhile_cons, if_neg (by simp [hc])]
      · rw [List.dropWhile_cons, if_neg (by simp [hc])]
  | cons x xs ih =>
    intro r hl hr
    have hx : p x = true := hl x (List.mem_cons_self x xs)
    obtain ⟨iht, ihd⟩ := ih r (fun c hc => hl c (List.mem_cons_of_mem _ hc)) hr
    constructor
    · rw [List.cons_append, List.takeWhile_cons, if_pos (by simp [hx]), iht]
    · rw [List.cons_append, List.dropWhile_cons, if_pos (by simp [hx]), ihd]

theorem readNat_append {d r : List Char} (hd : d ≠ []) (hdig : ∀ c ∈ d, c.isDigit = true)
    (hr : headFails Char.isDigit r) :
    readNat (d ++ r) = some (digitsVal d, r) := by
  obtain ⟨ht, hdr⟩ := takeWhile_append_all Char.isDigit d r hdig hr
  rw [readNat, ht, hdr, if_neg hd]

theorem readNat_some {l : List Char} {n : Nat} {r : List Char} (h : readNat l = some (n, r)) :
    l = l.takeWhile Char.isDigit ++ r ∧ l.takeWhile Char.isDigit ≠ []
      ∧ n = digitsVal (l.takeWhile Char.isDigit)
      ∧ ∀ c ∈ l.takeWhile Char.isDigit, c.isDigit = true := by
  rw [readNat] at h
  by_cases hds : l.takeWhile Char.isDigit = []
  · rw [if_pos hds] at h; exact absurd h (by simp)
  · rw [if_neg hds] at h
    have h' := Option.some.inj h
    have hn : digitsVal (l.takeWhile Char.isDigit) = n := congrArg Prod.fst h'
    have hr : l.dropWhile Char.isDigit = r := congrArg Prod.snd h'
    refine ⟨?_, hds, hn.symm, fun c hc => mem_takeWhile_pred hc⟩
    rw [← hr, List.takeWhile_append_dropWhile]

theorem expectDot_some {l r : List Char} (h : expectDot l = some r) : l = '.' :: r := by
  cases l with
  | nil => simp [expectDot] at h
  | cons c t =>
    simp only [expectDot] at h
    by_cases hc : c = '.'
    · rw [if_pos hc] at h; rw [hc, Option.some.inj h]
    · rw [if_neg hc] at h; exact absurd h (by simp)

theorem matchCore_append {d1 d2 d3 rest : List Char}
    (h1 : d1 ≠ []) (h2 : d2 ≠ []) (h3 : d3 ≠ [])
    (g1 : ∀ c ∈ d1, c.isDigit = true) (g2 : ∀ c ∈ d2, c.isDigit = true)
    (g3 : ∀ c ∈ d3, c.isDigit = true) (hrest : headFails Char.isDigit rest) :
    matchCore (d1 ++ '.' :: (d2 ++ '.' :: (d3 ++ rest)))
      = some (digitsVal d1, digitsVal d2, digitsVal d3) := by
  have hdot : headFails Char.isDigit ('.' :: (d2 ++ '.' :: (d3 ++ rest))) :=
    headFails_cons (by decide)
  have hdot2 : headFails Char.isDigit ('.' :: (d3 ++ rest)) := headFails_cons (by decide)
  have r1 := readNat_append h1 g1 hdot
  have r2 := readNat_append h2 g2 hdot2
  have r3 := readNat_append h3 g3 hrest
  simp [matchCore, r1, r2, r3, expectDot]

theorem matchCore_some {l : List Char} {a b c : Nat} (h : matchCore l = some (a, b, c)) :
    ∃ d1 d2 d3 rest, l = d1 ++ '.' :: (d2 ++ '.' :: (d3 ++ rest))
      ∧ DigitsNonempty d1 ∧ DigitsNonempty d2 ∧ DigitsNonempty d3 := by
  rw [matchCore, Option.bind_eq_some] at h
  obtain ⟨p1, hp1, h⟩ := h
  rw [Option.bind_eq_some] at h
  obtain ⟨r2, he1, h⟩ := h
  rw [Option.bind_eq_some] at h
  obtain ⟨p2, hp2, h⟩ := h
  rw [Option.bind_eq_some] at h
  obtain ⟨r4, he2, h⟩ := h
  rw [Option.map_eq_some'] at h
  obtain ⟨p3, hp3, _⟩ := h
  obtain ⟨hl1, hne1, _, hdig1⟩ := readNat_some hp1
  obtain ⟨hl2, hne2, _, hdig2⟩ := readNat_some hp2
  obtain ⟨hl3, hne3, _, hdig3⟩ := readNat_some hp3
  refine ⟨l.takeWhile Char.isDigit, r2.takeWhile Char.isDigit, r4.takeWhile Char.isDigit,
    p3.2, ?_, ⟨hne1, hdig1⟩, ⟨hne2, hdig2⟩, ⟨hne3, hdig3⟩⟩
  calc l = l.takeWhile Char.isDigit ++ p1.2 := hl1
    _ = l.takeWhile Char.isDigit ++ '.' :: r2 := by rw [expectDot_some he1]
    _ = l.takeWhile Char.isDigit ++ '.' :: (r2.takeWhile Char.isDigit ++ p2.2) := by
        rw [← hl2]
    _ = l.takeWhile Char.isDigit ++ '.' :: (r2.takeWhile Char.isDigit ++ '.' :: r4) := by
        rw [expectDot_some he2]
    _ = l.takeWhile Char.isDigit
        ++ '.' :: (r2.takeWhile Char.isDigit ++ '.' :: (r4.takeWhile Char.isDigit ++ p3.2)) := by
        rw [← hl3]

theorem matchRcCore_append {d1 d2 d3 d4 rest : List Char}
    (h1 : d1 ≠ []) (h2 : d2 ≠ []) (h3 : d3 ≠ []) (h4 : d4 ≠ [])
    (g1 : ∀ c ∈ d1, c.isDigit = true) (g2 : ∀ c ∈ d2, c.isDigit = true)
    (g3 : ∀ c ∈ d3, c.isDigit = true) (g4 : ∀ c ∈ d4, c.isDigit = true)
    (hrest : headFails Char.isDigit rest) :
    matchRcCore (d1 ++ '.' :: (d2 ++ '.' :: (d3 ++ '-' :: 'r' :: 'c' :: '.' :: (d4 ++ rest))))
      = some ((digitsVal d1, digitsVal d2, digitsVal d3), digitsVal d4) := by
  have hdot : headFails Char.isDigit
      ('.' :: (d2 ++ '.' :: (d3 ++ '-' :: 'r' :: 'c' :: '.' :: (d4 ++ rest)))) :=
    headFails_cons (by decide)
  have hdot2 : headFails Char.isDigit
      ('.' :: (d3 ++ '-' :: 'r' :: 'c' :: '.' :: (d4 ++ rest))) := headFails_cons (by decide)
  have hdash : headFails Char.isDigit ('-' :: 'r' :: 'c' :: '.' :: (d4 ++ rest)) :=
    headFails_cons (by decide)
  have r1 := readNat_append h1 g1 hdot
  have r2 := readNat_append h2 g2 hdot2
  have r3 := readNat_append h3 g3 hdash
  have r4 := readNat_append h4 g4 hrest
  simp [matchRcCore, r1, r2, r3, r4, expectDot, expectRcSep]

/-! ## Helper lemmas: decimal rendering round-trip -/

theorem digitChar_isDigit {m : Nat} (h : m < 10) : (Nat.digitChar m).isDigit = true := by
  interval_cases m <;> decide

theorem digitVal_digitChar {m : Nat} (h : m < 10) : digitVal (Nat.digitChar m) = m := by
  interval_cases m <;> decide

theorem natDecimalAux_ok :
    ∀ (fuel n : Nat), n ≤ fuel →
      (∀ c ∈ natDecimalAux fuel n, c.isDigit = true)
      ∧ ∀ (a : Nat), List.foldl (fun acc c => 10 * acc + digitVal c) a (natDecimalAux fuel n)
          = a * 10 ^ (natDecimalAux fuel n).length + n := by
  intro fuel
  induction fuel with
  | zero =>
    intro n hn
    have h0 : n = 0 := Nat.le_zero.mp hn
    subst h0
    constructor
    · intro c hc; simp [natDecimalAux] at hc
    · intro a; simp [natDecimalAux]
  | succ f ih =>
    intro n hn
    by_cases h0 : n = 0
    · subst h0
      constructor
      · intro c hc; simp [natDecimalAux] at hc
      · intro a; simp [natDecimalAux]
    · have hlt : n / 10 < n := Nat.div_lt_self (Nat.pos_of_ne_zero h0) (by norm_num)
      have hle : n / 10 ≤ f := by omega
      obtain ⟨ihd, ihf⟩ := ih (n / 10) hle
      have hmod : n % 10 < 10 := Nat.mod_lt _ (by norm_num)
      have heq : natDecimalAux (f + 1) n
          = natDecimalAux f (n / 10) ++ [Nat.digitChar (n % 10)] := by
        simp [natDecimalAux, h0]
      constructor
      · intro c hc
        rw [heq] at hc
        rcases List.mem_append.mp hc with hc | hc
        · exact ihd c hc
        · simp at hc; subst hc; exact digitChar_isDigit hmod
      · intro a
        rw [heq, List.foldl_append]
        simp only [List.foldl_cons, List.foldl_nil]
        rw [ihf a, digitVal_digitChar hmod, List.length_append, List.length_singleton]
        have hdm := Nat.div_add_mod n 10
        calc 10 * (a * 10 ^ (natDecimalAux f (n / 10)).length + n / 10) + n % 10
            = a * (10 ^ (natDecimalAux f (n / 10)).length * 10)
              + (10 * (n / 10) + n % 10) := by ring
          _ = a * 10 ^ ((natDecimalAux f (n / 10)).length + 1) + n := by rw [hdm, ← pow_succ]

theorem natDecimal_ne_nil (n : Nat) : natDecimal n ≠ [] := by
  rw [natDecimal]
  by_cases h0 : n = 0
  · simp [h0]
  · rw [if_neg h0]
    cases hn : n with
    | zero => exact absurd hn h0
    | succ m =>
      rw [show natDecimalAux (m + 1) (m + 1)
          = natDecimalAux m ((m + 1) / 10) ++ [Nat.digitChar ((m + 1) % 10)] from by
        simp [natDecimalAux]]
      simp

theorem natDecimal_digits (n : Nat) : ∀ c ∈ natDecimal n, c.isDigit = true := by
  intro c hc
  rw [natDecimal] at hc
  by_cases h0 : n = 0
  · rw [if_pos h0] at hc; simp at hc; subst hc; decide
  · rw [if_neg h0] at hc
    exact (natDecimalAux_ok n n le_rfl).1 c hc

theorem digitsVal_natDecimal (n : Nat) : digitsVal (natDecimal n) = n := by
  rw [natDecimal]
  by_cases h0 : n = 0
  · rw [if_pos h0, h0]; decide
  · rw [if_neg h0]
    calc digitsVal (natDecimalAux n n)
        = 0 * 10 ^ (natDecimalAux n n).length + n := (natDecimalAux_ok n n le_rfl).2 0
      _ = n := by simp

theorem headFails_rcSuffix (rc : Option Nat) : headFails Char.isDigit (rcSuffix rc) := by
  cases rc with
  | none => trivial
  | some n => show Char.isDigit '-' = false; decide

theorem parse_version_format (v : Nat × Nat × Nat) (rc : Option Nat) :
    parse_version (format_version v rc) = v := by
  obtain ⟨a, b, c⟩ := v
  show (matchCore (stripLeadV (String.toList ⟨formatVersionChars (a, b, c) rc⟩))).getD (0, 0, 0)
      = (a, b, c)
  have hstrip : stripLeadV (String.toList ⟨formatVersionChars (a, b, c) rc⟩)
      = natDecimal a ++ '.' :: (natDecimal b ++ '.' :: (natDecimal c ++ rcSuffix rc)) := by
    simp [formatVersionChars, stripLeadV, String.toList]
  rw [hstrip, matchCore_append (natDecimal_ne_nil a) (natDecimal_ne_nil b) (natDecimal_ne_nil c)
    (natDecimal_digits a) (natDecimal_digits b) (natDecimal_digits c) (headFails_rcSuffix rc)]
  simp [digitsVal_natDecimal]

theorem parseRcTag_format (v : Nat × Nat × Nat) (n : Nat) :
    parseRcTag (format_version v (some n)) = some (v, n) := by
  obtain ⟨a, b, c⟩ := v
  show matchRcCore (stripLeadV (String.toList ⟨formatVersionChars (a, b, c) (some n)⟩))
      = some ((a, b, c), n)
  have hstrip : stripLeadV (String.toList ⟨formatVersionChars (a, b, c) (some n)⟩)
      = natDecimal a ++ '.' :: (natDecimal b ++ '.' :: (natDecimal c
          ++ '-' :: 'r' :: 'c' :: '.' :: (natDecimal n ++ []))) := by
    simp [formatVersionChars, stripLeadV, rcSuffix, String.toList]
  rw [hstrip, matchRcCore_append (natDecimal_ne_nil a) (natDecimal_ne_nil b)
    (natDecimal_ne_nil c) (natDecimal_ne_nil n) (natDecimal_digits a) (natDecimal_digits b)
    (natDecimal_digits c) (natDecimal_digits n) trivial]
  simp [digitsVal_natDecimal]

/-! ## Helper lemmas: pattern search inversion (get_gradle_version) -/

theorem stripPat_some : ∀ {pat l r : List Char}, stripPat pat l = some r → l = pat ++ r := by
  intro pat
  induction pat with
  | nil => intro l r h; simp only [stripPat] at h; simp [Option.some.inj h]
  | cons p ps ih =>
    intro l r h
    cases l with
    | nil => simp [stripPat] at h
    | cons c cs =>
      simp only [stripPat] at h
      by_cases hc : c = p
      · rw [if_pos hc] at h
        rw [List.cons_append, hc, ih h]
      · rw [if_neg hc] at h; exact absurd h (by simp)

theorem expectQuote_some {l r : List Char} (h : expectQuote l = some r) : l = '"' :: r := by
  cases l with
  | nil => simp [expectQuote] at h
  | cons c t =>
    simp only [expectQuote] at h
    by_cases hc : c = '"'
    · rw [if_pos hc] at h; rw [hc, Option.some.inj h]
    · rw [if_neg hc] at h; exact absurd h (by simp)

theorem tryVersionNameAt_some {l grp after : List Char}
    (h : tryVersionNameAt l = some (grp, after)) :
    l = vnPat ++ (grp ++ '"' :: after) ∧ grp ≠ [] ∧ ∀ c ∈ grp, c ≠ '"' := by
  rw [tryVersionNameAt, Option.bind_eq_some] at h
  obtain ⟨rest, hs, h⟩ := h
  rw [Option.bind_eq_some] at h
  obtain ⟨after', hq, h⟩ := h
  by_cases hT : rest.takeWhile (fun c => c != '"') = []
  · rw [if_pos hT] at h; exact absurd h (by simp)
  · rw [if_neg hT] at h
    have h' := Option.some.inj h
    have h1 : rest.takeWhile (fun c => c != '"') = grp := congrArg Prod.fst h'
    have h2 : after' = after := congrArg Prod.snd h'
    have hdw := expectQuote_some hq
    have hrest : rest = grp ++ '"' :: after := by
      calc rest = rest.takeWhile (fun c => c != '"') ++ rest.dropWhile (fun c => c != '"') :=
            (List.takeWhile_append_dropWhile _ _).symm
        _ = grp ++ '"' :: after := by rw [h1, hdw, h2]
    refine ⟨by rw [stripPat_some hs, hrest], by rw [← h1]; exact hT, ?_⟩
    intro c hc
    have hmem : c ∈ rest.takeWhile (fun c => c != '"') := by rw [h1]; exact hc
    have := mem_takeWhile_pred hmem
    simpa using this

theorem tryVersionCodeAt_some {l ds after : List Char}
    (h : tryVersionCodeAt l = some (ds, after)) :
    l = vcPat ++ (ds ++ after) ∧ ds ≠ [] ∧ ∀ c ∈ ds, c.isDigit = true := by
  rw [tryVersionCodeAt, Option.bind_eq_some] at h
  obtain ⟨rest, hs, h⟩ := h
  by_cases hT : rest.takeWhile Char.isDigit = []
  · rw [if_pos hT] at h; exact absurd h (by simp)
  · rw [if_neg hT] at h
    have h' := Option.some.inj h
    have h1 : rest.takeWhile Char.isDigit = ds := congrArg Prod.fst h'
    have h2 : rest.dropWhile Char.isDigit = after := congrArg Prod.snd h'
    have hrest : rest = ds ++ after := by
      calc rest = rest.takeWhile Char.isDigit ++ rest.dropWhile Char.isDigit :=
            (List.takeWhile_append_dropWhile _ _).symm
        _ = ds ++ after := by rw [h1, h2]
    refine ⟨by rw [stripPat_some hs, hrest], by rw [← h1]; exact hT, ?_⟩
    intro c hc
    have hmem : c ∈ rest.takeWhile Char.isDigit := by rw [h1]; exact hc
    exact mem_takeWhile_pred hmem

theorem searchVersionName_some : ∀ {l g : List Char},
    searchVersionName l = some g → HasVersionName l := by
  intro l
  induction l with
  | nil => intro g h; simp [searchVersionName] at h
  | cons c rest ih =>
    intro g h
    rw [searchVersionName] at h
    cases ht : tryVersionNameAt (c :: rest) with
    | some p =>
      obtain ⟨grp, after⟩ := p
      obtain ⟨hl, hne, hq⟩ := tryVersionNameAt_some ht
      exact ⟨[], grp, after, by simpa using hl, hne, hq⟩
    | none =>
      rw [ht] at h
      obtain ⟨a, g', b, heq, hne, hq⟩ := ih h
      exact ⟨c :: a, g', b, by simp [heq], hne, hq⟩

theorem searchVersionCode_some : ∀ {l g : List Char},
    searchVersionCode l = some g → HasVersionCode l := by
  intro l
  induction l with
  | nil => intro g h; simp [searchVersionCode] at h
  | cons c rest ih =>
    intro g h
    rw [searchVersionCode] at h
    cases ht : tryVersionCodeAt (c :: rest) with
    | some p =>
      obtain ⟨ds, after⟩ := p
      obtain ⟨hl, hne, hd⟩ := tryVersionCodeAt_some ht
      exact ⟨[], ds, after, by simpa using hl, hne, hd⟩
    | none =>
      rw [ht] at h
      obtain ⟨a, d', b, heq, hne, hd⟩ := ih h
      exact ⟨c :: a, d', b, by simp [heq], hne, hd⟩

/-! ## Helper lemmas: folder purge and copy -/

theorem purgeFolder_aux : ∀ (todo cur : List String), cur.Perm todo →
    List.foldl unlinkFile cur todo = [] := by
  intro todo
  induction todo with
  | nil => intro cur h; simpa using h.eq_nil
  | cons t ts ih =>
    intro cur h
    have h2 : (cur.erase t).Perm ts := by
      have he := h.erase t
      rwa [List.erase_cons_head] at he
    simpa [unlinkFile] using ih (cur.erase t) h2

theorem purgeFolder_eq_nil (folder : List String) : purgeFolder folder = [] :=
  purgeFolder_aux folder folder (List.Perm.refl folder)

theorem mem_copyInto {folder : List String} {name x : String} :
    x ∈ copyInto folder name ↔ x ∈ folder ∨ x = name := by
  rw [copyInto]
  by_cases h : name ∈ folder
  · rw [if_pos h]
    constructor
    · exact Or.inl
    · rintro (hx | rfl)
      · exact hx
      · exact h
  · rw [if_neg h]; simp

theorem mem_foldl_copyInto (version : String) :
    ∀ (items : List ApkSource) (init : List String) (x : String),
      x ∈ items.foldl (fun folder a => copyInto folder (renameApk version a.variant a.stem)) init
      → x ∈ init ∨ x ∈ items.map (fun a => renameApk version a.variant a.stem) := by
  intro items
  induction items with
  | nil => intro init x hx; exact Or.inl (by simpa using hx)
  | cons a as ih =>
    intro init x hx
    rcases ih (copyInto init (renameApk version a.variant a.stem)) x (by simpa using hx)
        with h | h
    · rcases mem_copyInto.mp h with h | h
      · exact Or.inl h
      · exact Or.inr (by simp [h])
    · exact Or.inr (by simp [h])

theorem mem_insertSorted {x y : String} :
    ∀ {l : List String}, x ∈ insertSorted y l → x = y ∨ x ∈ l := by
  intro l
  induction l with
  | nil => intro h; simp [insertSorted] at h; exact Or.inl h
  | cons z zs ih =>
    intro h
    rw [insertSorted] at h
    by_cases hc : (compare y z).isLE
    · rw [if_pos hc] at h
      rcases List.mem_cons.mp h with h | h
      · exact Or.inl h
      · exact Or.inr h
    · rw [if_neg hc] at h
      rcases List.mem_cons.mp h with h | h
      · exact Or.inr (by simp [h])
      · rcases ih h with h | h
        · exact Or.inl h
        · exact Or.inr (List.mem_cons_of_mem _ h)

theorem mem_sortStrings {x : String} : ∀ {l : List String}, x ∈ sortStrings l → x ∈ l := by
  intro l
  induction l with
  | nil => intro h; simp [sortStrings] at h
  | cons z zs ih =>
    intro h
    rw [sortStrings] at h
    rcases mem_insertSorted h with h | h
    · simp [h]
    · exact List.mem_cons_of_mem _ (ih h)

/-! ## Helper lemmas: membership utilities -/

theorem contains_iff_mem {l : List Char} {c : Char} : l.contains c = true ↔ c ∈ l := by
  induction l with
  | nil => simp
  | cons x xs ih => simp

theorem mem_of_head? {l : List String} {x : String} (h : l.head? = some x) : x ∈ l := by
  cases l with
  | nil => simp at h
  | cons a as =>
    simp at h
    rw [← h]
    exact List.mem_cons_self a as

theorem mem_of_containsSeq {pat l : List Char} {c : Char} (hp : c ∈ pat)
    (h : ContainsSeq pat l) : c ∈ l := by
  obtain ⟨a, b, rfl⟩ := h
  simp [hp]

/-! ## Claim theorems -/

/-- Claim C1: when the build step is invoked with an explicit target
version, on every exit path (normal return, or the external build step
failing) the build.gradle content ends byte-identical to its content
before the run, the scoped backup file is gone, and the outcome reflects
exactly the external build step's result, despite the intermediate
rewrite. -/
theorem build_gradle_restored (fs : GradleFs) (version : String) (buildOk : Bool) :
    ((build_apks_with_version fs version buildOk).1).gradle = fs.gradle
    ∧ ((build_apks_with_version fs version buildOk).1).backup = none
    ∧ ((build_apks_with_version fs version buildOk).2 = BuildOutcome.buildFailure
        ↔ buildOk = false) := by
  refine ⟨rfl, rfl, ?_⟩
  cases buildOk <;> simp [build_apks_with_version]

/-- Claim C2 (counterexample): the parse/format round-trip fails on a
canonical tag string with an RC suffix, because `parse_version` discards
the suffix and `format_version`'s `rc` parameter defaults to `None`. -/
theorem roundtrip_fails_on_rc :
    format_version (parse_version "v1.0.0-rc.1") none ≠ "v1.0.0-rc.1" := by
  decide

/-- Claim C2 (amended): the parse/format round-trip holds for tag strings
in canonical stable form, i.e. exactly the image of `format_version`
with no RC suffix. -/
theorem format_parse_roundtrip_stable (v : Nat × Nat × Nat) :
    format_version (parse_version (format_version v none)) none = format_version v none := by
  rw [parse_version_format]

/-- Claim C6: for every version triple and release kind, `bump_version`
returns a strictly greater triple under lexicographic order, advancing
exactly one field and resetting the lower fields to zero for major and
minor bumps. -/
theorem bump_version_monotone (v : Nat × Nat × Nat) (rt : ReleaseType) :
    versionLt v (bump_version v rt)
    ∧ bump_version v ReleaseType.major = (v.1 + 1, 0, 0)
    ∧ bump_version v ReleaseType.minor = (v.1, v.2.1 + 1, 0)
    ∧ bump_version v ReleaseType.patch = (v.1, v.2.1, v.2.2 + 1) := by
  refine ⟨?_, rfl, rfl, rfl⟩
  cases rt with
  | major => exact Or.inl (Nat.lt_succ_self _)
  | minor => exact Or.inr ⟨rfl, Or.inl (Nat.lt_succ_self _)⟩
  | patch => exact Or.inr ⟨rfl, Or.inr ⟨rfl, Nat.lt_succ_self _⟩⟩

/-- Claim C9: `parse_version` anchors only at the start of the input and
silently discards all trailing text after the greedy three-group match
(in particular an RC suffix), returning the matched numeric triple; every
string not beginning with the pattern yields (0, 0, 0). -/
theorem parse_version_anchor_and_suffix (s : String) :
    (∀ d1 d2 d3 rest, VersionPrefixDecomp s.toList d1 d2 d3 rest →
        headFails Char.isDigit rest →
        parse_version s = (digitsVal d1, digitsVal d2, digitsVal d3))
    ∧ (¬ BeginsWithVersionPattern s.toList → parse_version s = (0, 0, 0)) := by
  constructor
  · rintro d1 d2 d3 rest ⟨hcase, ⟨hne1, hd1⟩, ⟨hne2, hd2⟩, ⟨hne3, hd3⟩⟩ hrest
    show (matchCore (stripLeadV s.toList)).getD (0, 0, 0) = _
    have hstrip : stripLeadV s.toList = d1 ++ '.' :: (d2 ++ '.' :: (d3 ++ rest)) := by
      rcases hcase with hcase | hcase
      · rw [hcase]; simp [stripLeadV]
      · rw [hcase]
        cases d1 with
        | nil => exact absurd rfl hne1
        | cons x xs =>
          have hx : x.isDigit = true := hd1 x (List.mem_cons_self x xs)
          have hxv : ¬ x = 'v' := by
            intro heq; rw [heq] at hx; exact absurd hx (by decide)
          rw [List.cons_append]
          simp [stripLeadV, hxv]
    rw [hstrip, matchCore_append hne1 hne2 hne3 hd1 hd2 hd3 hrest]
    rfl
  · intro hno
    show (matchCore (stripLeadV s.toList)).getD (0, 0, 0) = (0, 0, 0)
    cases hm : matchCore (stripLeadV s.toList) with
    | none => rfl
    | some t =>
      obtain ⟨a, b, c⟩ := t
      obtain ⟨d1, d2, d3, rest, hdec, hq1, hq2, hq3⟩ := matchCore_some hm
      exfalso
      apply hno
      cases hs : s.toList with
      | nil =>
        rw [hs] at hdec
        simp only [stripLeadV] at hdec
        exact absurd (List.append_eq_nil.mp hdec.symm).1 hq1.1
      | cons c0 rest0 =>
        rw [hs] at hdec
        by_cases hv : c0 = 'v'
        · have hred : stripLeadV (c0 :: rest0) = rest0 := by simp [stripLeadV, hv]
          rw [hred] at hdec
          refine ⟨d1, d2, d3, rest, Or.inl ?_, hq1, hq2, hq3⟩
          rw [hv, hdec]
        · have hred : stripLeadV (c0 :: rest0) = c0 :: rest0 := by simp [stripLeadV, hv]
          rw [hred] at hdec
          exact ⟨d1, d2, d3, rest, Or.inr hdec, hq1, hq2, hq3⟩

/-- Witness for C9: the RC suffix of a well-formed tag is discarded, and
a non-matching string parses to (0, 0, 0). -/
theorem parse_version_anchor_witness :
    parse_version "v1.2.3-rc.4" = (1, 2, 3) ∧ parse_version "x" = (0, 0, 0) := by
  constructor
  · have h := (parse_version_anchor_and_suffix "v1.2.3-rc.4").1 ['1'] ['2'] ['3']
      ("-rc.4".toList) (by decide) (by show Char.isDigit '-' = false; decide)
    exact h.trans (by decide)
  · refine (parse_version_anchor_and_suffix "x").2 ?_
    rintro ⟨d1, d2, d3, rest, hcase, ⟨hne1, _⟩, _, _⟩
    have hdot : '.' ∈ ("x" : String).toList := by
      rcases hcase with h | h <;> rw [h] <;> simp
    exact absurd hdot (by decide)

/-- Claim C10: reading the version-declaration file never fails on
missing fields: with no versionName match `get_gradle_version` returns
the version string "0.0.0", and with no versionCode match it returns
build identifier 1, instead of erroring. -/
theorem gradle_version_missing_defaults (content : String) :
    (¬ HasVersionName content.toList → (get_gradle_version content).1 = "0.0.0")
    ∧ (¬ HasVersionCode content.toList → (get_gradle_version content).2 = 1) := by
  constructor
  · intro hno
    cases hs : searchVersionName content.toList with
    | none => unfold get_gradle_version; rw [hs]
    | some g => exact absurd (searchVersionName_some hs) hno
  · intro hno
    cases hs : searchVersionCode content.toList with
    | none => unfold get_gradle_version; rw [hs]
    | some g => exact absurd (searchVersionCode_some hs) hno

/-- Witness for C10: the empty gradle file yields both defaults. -/
theorem gradle_version_defaults_witness :
    (get_gradle_version "").1 = "0.0.0" ∧ (get_gradle_version "").2 = 1 := by
  constructor
  · refine (gradle_version_missing_defaults "").1 ?_
    rintro ⟨a, g, b, heq, -, -⟩
    have h2 : a ++ (vnPat ++ (g ++ '"' :: b)) = [] := by rw [← heq]; rfl
    rw [List.append_eq_nil] at h2
    have h3 := h2.2
    rw [List.append_eq_nil] at h3
    exact absurd h3.1 (by decide)
  · refine (gradle_version_missing_defaults "").2 ?_
    rintro ⟨a, d, b, heq, -, -⟩
    have h2 : a ++ (vcPat ++ (d ++ b)) = [] := by rw [← heq]; rfl
    rw [List.append_eq_nil] at h2
    have h3 := h2.2
    rw [List.append_eq_nil] at h3
    exact absurd h3.1 (by decide)

/-- Claim C7: latest-stable selection never returns a tag containing
"-rc." (it returns only dash-free lines), and latest-RC selection, whose
store query yields only tags matching the glob `v*-rc.*`, never returns
a tag without "-rc.". -/
theorem tag_selection_rc_suffix (rc1 rc2 : Int) (out1 out2 : String) :
    (∀ t, get_latest_stable_tag rc1 out1 = some t
        → ¬ ContainsSeq ['-', 'r', 'c', '.'] t.toList)
    ∧ ((∀ t ∈ tagLines out2, RcGlob t)
        → ∀ t, get_latest_rc_tag rc2 out2 = some t
        → ContainsSeq ['-', 'r', 'c', '.'] t.toList) := by
  constructor
  · intro t ht hseq
    rw [get_latest_stable_tag] at ht
    by_cases hrc : rc1 ≠ 0
    · rw [if_pos hrc] at ht; exact absurd ht (by simp)
    · rw [if_neg hrc] at ht
      have hnc : t.toList.contains '-' = false := by
        cases hx : t.toList.contains '-' with
        | false => rfl
        | true =>
          have hp := List.find?_some ht
          rw [hx] at hp
          simp at hp
      have hmem : '-' ∈ t.toList := mem_of_containsSeq (by decide) hseq
      rw [← contains_iff_mem, hnc] at hmem
      exact absurd hmem (by simp)
  · intro hglob t ht
    rw [get_latest_rc_tag] at ht
    by_cases hc : rc2 ≠ 0 ∨ trimChars out2.toList = []
    · rw [if_pos hc] at ht; exact absurd ht (by simp)
    · rw [if_neg hc] at ht
      have hmem := mem_of_head? ht
      obtain ⟨a, b, heq⟩ := hglob t hmem
      exact ⟨'v' :: a, b, by rw [heq]; simp⟩

/-- Witness for C7 at a concrete store response. -/
theorem tag_selection_rc_suffix_witness :
    ¬ ContainsSeq ['-', 'r', 'c', '.'] ("v1.2.0" : String).toList
    ∧ ContainsSeq ['-', 'r', 'c', '.'] ("v1.0.0-rc.1" : String).toList := by
  constructor
  · exact (tag_selection_rc_suffix 0 0 "v1.2.0" "v1.0.0-rc.1").1 "v1.2.0" (by decide)
  · refine (tag_selection_rc_suffix 0 0 "v1.2.0" "v1.0.0-rc.1").2 ?_ "v1.0.0-rc.1" (by decide)
    intro t ht
    have hlines : tagLines "v1.0.0-rc.1" = ["v1.0.0-rc.1"] := by decide
    rw [hlines] at ht
    simp at ht
    subst ht
    exact ⟨"1.0.0".toList, "1".toList, by decide⟩

/-- Claim C8: when the store lists no stable tag, latest-stable selection
returns an explicit absent result instead of raising, and a plain patch
tag request falls back to base version (0, 0, 0) before bumping,
producing the tag "v0.0.1". -/
theorem no_stable_tags_fallback (returncode : Int) (stdout : String) (rcTag : Option String) :
    ((∀ t ∈ tagLines stdout, t = "" ∨ t.toList.contains '-' = true)
        → get_latest_stable_tag returncode stdout = none)
    ∧ computeNewTag (some ReleaseType.patch) false none rcTag = Except.ok "v0.0.1" := by
  constructor
  · intro h
    rw [get_latest_stable_tag]
    by_cases hrc : returncode ≠ 0
    · rw [if_pos hrc]
    · rw [if_neg hrc, List.find?_eq_none]
      intro t ht
      rcases h t ht with h1 | h1
      · intro hp; rw [h1] at hp; simp at hp
      · intro hp; rw [h1] at hp; simp at hp
  · rfl

/-- Witness for C8: a store listing only an RC tag yields no stable
tag. -/
theorem no_stable_tags_fallback_witness :
    get_latest_stable_tag 0 "v1.0.0-rc.1" = none :=
  (no_stable_tags_fallback 0 "v1.0.0-rc.1" none).1 (by decide)

/-- Claim C4: incrementing an existing RC tag (rc command without a
release type) keeps the parsed version triple and advances the RC
ordinal by exactly one; a latest RC tag not matching the RC pattern is a
malformed-tag error; and a fresh RC created from a release-type bump
always begins at ordinal 1. -/
theorem rc_tag_increment (stableTag : Option String) (rcTag : String) :
    (∀ a b c n, parseRcTag rcTag = some ((a, b, c), n) →
        computeNewTag none true stableTag (some rcTag)
            = Except.ok (format_version (a, b, c) (some (n + 1)))
        ∧ parseRcTag (format_version (a, b, c) (some (n + 1))) = some ((a, b, c), n + 1))
    ∧ (parseRcTag rcTag = none →
        computeNewTag none true stableTag (some rcTag)
            = Except.error (TagError.malformedRc rcTag))
    ∧ (∀ (rt : ReleaseType) (rcOpt : Option String),
        computeNewTag (some rt) true stableTag rcOpt
            = Except.ok (format_version (bump_version (currentVersionOf stableTag) rt) (some 1))
        ∧ parseRcTag (format_version (bump_version (currentVersionOf stableTag) rt) (some 1))
            = some (bump_version (currentVersionOf stableTag) rt, 1)) := by
  refine ⟨?_, ?_, ?_⟩
  · intro a b c n h
    exact ⟨by simp [computeNewTag, h], parseRcTag_format (a, b, c) (n + 1)⟩
  · intro h
    simp [computeNewTag, h]
  · intro rt rcOpt
    exact ⟨rfl, parseRcTag_format _ 1⟩

/-- Witness for C4: incrementing the RC tag v1.2.1-rc.2 yields
v1.2.1-rc.3. -/
theorem rc_tag_increment_witness :
    computeNewTag none true (some "v1.2.0") (some "v1.2.1-rc.2")
      = Except.ok (format_version (1, 2, 1) (some 3)) :=
  ((rc_tag_increment (some "v1.2.0") "v1.2.1-rc.2").1 1 2 1 2 (by decide)).1

/-- Claim C3: releasing an existing tag whose output directory is absent
or contains zero .apk files fails with the missing-artifacts error
(folder-not-found or no-APKs), and no `gh` command is ever run. -/
theorem release_missing_artifacts (env : ReleaseEnv) (tag : String) (draft : Bool)
    (hne : tag ≠ "") (hex : env.tagExists tag = true)
    (hmiss : env.folderExists (lstripV tag) = false ∨ env.apkFiles (lstripV tag) = []) :
    ((create_release env (some tag) draft).2
        = Except.error (ReleaseError.folderNotFound (lstripV tag))
      ∨ (create_release env (some tag) draft).2
        = Except.error (ReleaseError.noApks (lstripV tag)))
    ∧ ∀ cmd ∈ (create_release env (some tag) draft).1, cmd.head? ≠ some "gh" := by
  by_cases hf : env.folderExists (lstripV tag) = false
  · have hrun : create_release env (some tag) draft
        = ([["git", "rev-parse", tag]],
            Except.error (ReleaseError.folderNotFound (lstripV tag))) := by
      simp [create_release, hne, hex, hf]
    rw [hrun]
    refine ⟨Or.inl rfl, ?_⟩
    intro cmd hc
    simp only [List.mem_singleton] at hc
    subst hc
    intro h
    rw [List.head?_cons] at h
    exact absurd (Option.some.inj h) (by decide)
  · have hf' : env.folderExists (lstripV tag) = true := by
      cases hcase : env.folderExists (lstripV tag)
      · exact absurd hcase hf
      · rfl
    have ha : env.apkFiles (lstripV tag) = [] := hmiss.resolve_left hf
    have hrun : create_release env (some tag) draft
        = ([["git", "rev-parse", tag]],
            Except.error (ReleaseError.noApks (lstripV tag)))  := by
      simp [create_release, hne, hex, hf', ha]
    rw [hrun]
    refine ⟨Or.inr rfl, ?_⟩
    intro cmd hc
    simp only [List.mem_singleton] at hc
    subst hc
    intro h
    rw [List.head?_cons] at h
    exact absurd (Option.some.inj h) (by decide)

/-- Witness for C3: an existing tag with no release folder fails with
the missing-artifacts error before any hosting call. -/
theorem release_missing_artifacts_witness :
    (create_release envNoArtifacts (some "v1.0.0") false).2
        = Except.error (ReleaseError.folderNotFound (lstripV "v1.0.0"))
      ∨ (create_release envNoArtifacts (some "v1.0.0") false).2
        = Except.error (ReleaseError.noApks (lstripV "v1.0.0")) :=
  (release_missing_artifacts envNoArtifacts "v1.0.0" false (by decide) rfl (Or.inl rfl)).1

/-- Claim C5: the assemble step purges every pre-existing file in the
output directory before copying renamed artifacts in, so the resulting
listing is independent of prior contents and the manifest's SHA256
listing only ever names freshly renamed artifacts. -/
theorem stale_never_survives (pre : List String) (version : String) (apks : List ApkSource) :
    outputAfterAssemble pre version apks = outputAfterAssemble [] version apks
    ∧ ∀ f ∈ manifestApkListing (outputAfterAssemble pre version apks),
        f ∈ apks.map (fun a => renameApk version a.variant a.stem) := by
  constructor
  · simp only [outputAfterAssemble, purgeFolder_eq_nil]
  · intro f hf
    rw [manifestApkListing] at hf
    have hmem := mem_sortStrings hf
    obtain ⟨hmem2, happ⟩ := List.mem_filter.mp hmem
    simp only [outputAfterAssemble] at hmem2
    rcases mem_copyInto.mp hmem2 with h | h
    · rcases mem_foldl_copyInto version apks _ f h with h | h
      · rw [purgeFolder_eq_nil] at h
        exact absurd h (by simp)
      · exact h
    · subst h
      exact absurd happ (by decide)

/-- Witness for C5: a stale file does not change the outcome, and the
renamed artifact appears in the expected listing. -/
theorem stale_never_survives_witness :
    ("FFShare_1.0.0_full_arm64.apk" : String)
      ∈ ([⟨"full", "app-full-arm64-v8a-release"⟩] : List ApkSource).map
          (fun a => renameApk "1.0.0" a.variant a.stem) := by
  refine (stale_never_survives ["stale.apk"] "1.0.0"
      [⟨"full", "app-full-arm64-v8a-release"⟩]).2 "FFShare_1.0.0_full_arm64.apk" ?_
  decide
